import Mathlib

/-!
Shallow embedding of the Crisp.nl product scraper (src/scrape.py) and
verification of its natural-language specification.  Python dictionaries
with optional keys become a `Product` structure with `Option` fields;
Python float prices become `Rat`; Python truthiness of optional values is
modelled explicitly (`none` and `some 0` / `some ""` are falsy).
-/

namespace Crisp

/-! ## Characters and strings -/

/-- Lowercase a character list (models Python `str.lower` on the ASCII
range used by the scraper's keyword heuristics). -/
def lowerL (l : List Char) : List Char := l.map Char.toLower

/-- `text.replace('€', '')` from `extract_price`. -/
def stripEuro (l : List Char) : List Char := l.filter (fun c => c ≠ '€')

/-- `text.replace(',', '.')` from `extract_price`. -/
def commaToDot (l : List Char) : List Char :=
  l.map (fun c => if c = ',' then '.' else c)

/-- Does `needle` occur at the start of `hay`? -/
def startsL : List Char → List Char → Bool
  | [], _ => true
  | _ :: _, [] => false
  | c :: cs, h :: hs => c = h && startsL cs hs

/-- Does `needle` occur anywhere inside `hay` (Python `needle in hay`)? -/
def containsSub (hay needle : List Char) : Bool :=
  match hay with
  | [] => startsL needle []
  | _ :: hs => startsL needle hay || containsSub hs needle

/-- Python `'€' in text`. -/
def containsChar (c : Char) (l : List Char) : Bool := l.any (fun d => d = c)

/-- Python `str.strip()`: drop whitespace at both ends. -/
def trimL (l : List Char) : List Char :=
  ((l.dropWhile Char.isWhitespace).reverse.dropWhile Char.isWhitespace).reverse

def trimS (s : String) : String := ⟨trimL s.data⟩

/-- Concatenation of a list of strings (Python `''.join`). -/
def joinS (l : List String) : String := l.foldl (fun a b => a ++ b) ""

/-- Space-joined class attribute value, as the HTML serializes it. -/
def joinSpace : List String → String
  | [] => ""
  | [c] => c
  | c :: cs => c ++ " " ++ joinSpace cs

/-! ## Numeric token scanning (the regexes of `extract_price` and `is_on_sale`) -/

def digitVal (c : Char) : Nat := c.toNat - 48

/-- Consume a maximal run of digits, accumulating its value. -/
def digitRun (acc : Nat) : List Char → Nat × List Char
  | [] => (acc, [])
  | c :: cs =>
    if c.isDigit then digitRun (acc * 10 + digitVal c) cs else (acc, c :: cs)

/-- Consume a maximal run of digits, accumulating its value and length
(for the fractional part of a price token). -/
def fracRun (acc cnt : Nat) : List Char → Nat × Nat
  | [] => (acc, cnt)
  | c :: cs =>
    if c.isDigit then fracRun (acc * 10 + digitVal c) (cnt + 1) cs else (acc, cnt)

/-- Leftmost match of the regex `\d+[,.]?\d*`, as a rational value.
The match starts at the first digit; the integer run is maximal, an
optional single separator follows, then a maximal fractional run. -/
def findToken : List Char → Option Rat
  | [] => none
  | c :: cs =>
    if c.isDigit then
      let (ip, rest) := digitRun (digitVal c) cs
      match rest with
      | sep :: rest2 =>
        if sep = '.' || sep = ',' then
          let (fv, fc) := fracRun 0 0 rest2
          some ((ip : Rat) + (fv : Rat) / ((10 : Rat) ^ fc))
        else some (ip : Rat)
      | [] => some (ip : Rat)
    else findToken cs

/-- `CrispScraper.extract_price`: strip `€`, turn `,` into `.`, return the
first numeric token, or `none` when the text is empty or has no digits. -/
def extract_price (s : String) : Option Rat :=
  if s.data.isEmpty then none
  else findToken (commaToDot (stripEuro s.data))

/-- Leftmost match of the regex `(\d+)%` (used by `is_on_sale`): the value
of the first maximal digit run that is immediately followed by `%`.
The accumulator holds the value of the digit run ending at the current
position, if any. -/
def findDiscountAux : Option Nat → List Char → Option Nat
  | _, [] => none
  | cur, c :: cs =>
    if c.isDigit then findDiscountAux (some ((cur.getD 0) * 10 + digitVal c)) cs
    else if c = '%' then
      match cur with
      | some v => some v
      | none => findDiscountAux none cs
    else findDiscountAux none cs

def findDiscount (l : List Char) : Option Nat := findDiscountAux none l

/-! ## The product record -/

/-- A scraped product: a Python dict whose keys may be absent.  `none`
models an absent key; `on_sale` is absent (`false`) until classification
sets it. -/
structure Product where
  title : Option String := none
  description : Option String := none
  price : Option Rat := none
  sale_price : Option Rat := none
  original_price : Option Rat := none
  discount_percentage : Option Nat := none
  image : Option String := none
  link : Option String := none
  on_sale : Bool := false
  source : Option String := none
deriving DecidableEq

/-- Python truthiness of an optional string (`None` and `''` are falsy). -/
def truthyS : Option String → Bool
  | none => false
  | some s => s ≠ ""

/-- Python truthiness of an optional number (`None` and `0.0` are falsy). -/
def truthyQ : Option Rat → Bool
  | none => false
  | some q => q ≠ 0

/-- The fixed keyword list of `is_on_sale`. -/
def sale_keywords : List String :=
  ["korting", "sale", "aanbieding", "actie", "voordeel",
   "nu voor", "was", "bespaar", "nu", "%"]

/-- The combined lowercase title+description text used by `is_on_sale`. -/
def saleText (p : Product) : List Char :=
  lowerL ((p.title.getD "" ++ " " ++ p.description.getD "").data)

/-- `CrispScraper.is_on_sale`: returns the classification together with
the (possibly mutated) record, since the Python code sets
`discount_percentage` on the dict when the `(\d+)%` regex matches. -/
def is_on_sale (p : Product) : Bool × Product :=
  let t := saleText p
  match findDiscountAux none t with
  | some d => (true, { p with discount_percentage := some d })
  | none =>
    if sale_keywords.any (fun k => containsSub t k.data) then (true, p)
    else if truthyQ p.original_price && truthyQ p.sale_price then (true, p)
    else (false, p)

/-! ## The parsed document

`BeautifulSoup` output is modelled as a tree of element and text nodes.
Only the attributes the scraper reads are kept: `class`, `data-testid`,
`href`, `src`, `data-src`. -/

mutual
inductive Node where
  | text (s : String)
  | elem (tag : String) (classes : List String) (testid : Option String)
      (href : Option String) (src : Option String) (dataSrc : Option String)
      (children : NodeList)
inductive NodeList where
  | nil
  | cons (head : Node) (tail : NodeList)
end

/- All nodes of a subtree satisfying `q`, in document (pre)order; models
both `find_all` (applied to an element's children) and `soup.select`
(applied to the document roots). `find` is `(·).head?`. -/
mutual
def findAllN (q : Node → Bool) : Node → List Node
  | .text s => if q (.text s) then [.text s] else []
  | .elem t c ti h sr ds ch =>
      (if q (.elem t c ti h sr ds ch) then [Node.elem t c ti h sr ds ch] else [])
        ++ findAllL q ch
def findAllL (q : Node → Bool) : NodeList → List Node
  | .nil => []
  | .cons n ns => findAllN q n ++ findAllL q ns
end

/- The text fragments of a subtree, in document order. -/
mutual
def textsN : Node → List String
  | .text s => [s]
  | .elem _ _ _ _ _ _ ch => textsL ch
def textsL : NodeList → List String
  | .nil => []
  | .cons n ns => textsN n ++ textsL ns
end

/-- `get_text(strip=True)`: each descendant text fragment stripped, then
joined without separator. -/
def getTextStrip : Node → String
  | .text s => trimS s
  | .elem _ _ _ _ _ _ ch => joinS ((textsL ch).map trimS)

/-- Does any individual CSS class of the element, lowercased, contain one
of `words`?  (BeautifulSoup matches a `class_` regex against each class.) -/
def elemClassAny (words : List String) : Node → Bool
  | .text _ => false
  | .elem _ cs _ _ _ _ _ =>
      cs.any (fun c => words.any (fun w => containsSub (lowerL c.data) w.data))

/-- Does the element's `data-testid`, lowercased, contain one of `words`? -/
def elemTestidAny (words : List String) : Node → Bool
  | .text _ => false
  | .elem _ _ ti _ _ _ _ =>
      match ti with
      | none => false
      | some t => words.any (fun w => containsSub (lowerL t.data) w.data)

/-- Is the node an element whose tag is one of `tags`? -/
def elemTagIn (tags : List String) : Node → Bool
  | .text _ => false
  | .elem t _ _ _ _ _ _ => tags.contains t

/-- After skipping whitespace, is the next character a digit?
(the `\s*\d` tail of the regex `€\s*\d+`). -/
def afterEuroWs : List Char → Bool
  | [] => false
  | c :: cs => if c.isWhitespace then afterEuroWs cs else c.isDigit

/-- Does the regex `€\s*\d+` match somewhere in the string? -/
def euroNum : List Char → Bool
  | [] => false
  | c :: cs => (c = '€' && afterEuroWs cs) || euroNum cs

/-- Is the node a text node matching `text=re.compile(r'€\s*\d+')`? -/
def textEuro : Node → Bool
  | .text s => euroNum s.data
  | .elem _ _ _ _ _ _ _ => false

/-! ## The selector cascade -/

/-- The shapes of CSS selectors appearing in `product_selectors`. -/
inductive Selector where
  | classContains (s : String)   -- [class*="s"] : substring of the class attribute
  | testidContains (s : String)  -- [data-testid*="s"]
  | tagIs (s : String)           -- bare tag name
  | classExact (s : String)      -- .s : exact class
deriving DecidableEq

def product_selectors : List Selector :=
  [Selector.classContains "product",
   Selector.classContains "item",
   Selector.testidContains "product",
   Selector.tagIs "article",
   Selector.classExact "card",
   Selector.classContains "tile"]

/-- CSS matching of one selector against one node.  `[class*=...]` does a
substring test on the whole space-joined class attribute, case-sensitively. -/
def selMatches (s : Selector) : Node → Bool
  | .text _ => false
  | .elem t cs ti _ _ _ _ =>
    match s with
    | .classContains w => containsSub (joinSpace cs).data w.data
    | .testidContains w =>
      match ti with
      | none => false
      | some v => containsSub v.data w.data
    | .tagIs w => t = w
    | .classExact w => cs.contains w

/-- `soup.select(selector)` over the document roots. -/
def selectQ (body : NodeList) (s : Selector) : List Node :=
  findAllL (selMatches s) body

/-! ## Per-element extraction (`scrape_product_from_element`) -/

def base_url : String := "https://crisp.nl"

/-- `urljoin(base, rel)`, simplified to the cases the scraper produces. -/
def urljoin (base rel : String) : String :=
  if rel.startsWith "http" then rel else base ++ rel

def headingTags : List String := ["h1", "h2", "h3", "h4", "h5", "h6"]

/-- The element's price-candidate sub-nodes: class matching
`price|cost|amount`, then `data-testid` matching `price`, then text nodes
matching `€\s*\d+` — three `find_all` results concatenated. -/
def priceCandidates (ch : NodeList) : List Node :=
  findAllL (elemClassAny ["price", "cost", "amount"]) ch
    ++ findAllL (elemTestidAny ["price"]) ch
    ++ findAllL textEuro ch

/-- The text a price candidate contributes: `get_text(strip=True)` for an
element, `str(...).strip()` for a text node. -/
def priceTextOf : Node → String
  | .text s => trimS s
  | n => getTextStrip n

/-- The numeric prices collected from an element's candidates: text must
contain `€`, parse to a number, and that number must be truthy (nonzero). -/
def collectPrices (ch : NodeList) : List Rat :=
  (priceCandidates ch).filterMap (fun n =>
    let t := priceTextOf n
    if containsChar '€' t.data then
      match extract_price t with
      | some p => if p ≠ 0 then some p else none
      | none => none
    else none)

/-- Python `min(prices)` for a nonempty list `p :: l`. -/
def listMin (p : Rat) (l : List Rat) : Rat := l.foldl min p

/-- Python `max(prices)` for a nonempty list `p :: l`. -/
def listMax (p : Rat) (l : List Rat) : Rat := l.foldl max p

/-- The price-field assignment: one price goes to `price`; two or more go
to `sale_price := min`, `original_price := max`. -/
def assignPrices : List Rat → Option Rat × Option Rat × Option Rat
  | [] => (none, none, none)
  | [p] => (some p, none, none)
  | p :: q :: rest =>
      (none, some (listMin p (q :: rest)), some (listMax p (q :: rest)))

def elemChildren : Node → NodeList
  | .text _ => NodeList.nil
  | .elem _ _ _ _ _ _ ch => ch

/-- The record built from one container element, before the retention
check.  Sub-element titles are found by heading tag, then by class
matching `title|name|product`, then by `data-testid` matching `title|name`. -/
def buildProduct (e : Node) : Product :=
  let ch := elemChildren e
  let titleElem :=
    (findAllL (elemTagIn headingTags) ch).head?
      <|> (findAllL (elemClassAny ["title", "name", "product"]) ch).head?
      <|> (findAllL (elemTestidAny ["title", "name"]) ch).head?
  let assigned := assignPrices (collectPrices ch)
  let de := (findAllL (elemClassAny ["description", "desc", "summary"]) ch).head?
  let im := (findAllL (elemTagIn ["img"]) ch).head?.bind (fun n =>
    match n with
    | .elem _ _ _ _ sr ds _ => (sr <|> ds).map (urljoin base_url)
    | .text _ => none)
  let ln := (findAllL (elemTagIn ["a"]) ch).head?.bind (fun n =>
    match n with
    | .elem _ _ _ h _ _ _ => h.map (urljoin base_url)
    | .text _ => none)
  { title := titleElem.map getTextStrip
    description := de.map getTextStrip
    price := assigned.1
    sale_price := assigned.2.1
    original_price := assigned.2.2
    image := im
    link := ln }

/-- `CrispScraper.scrape_product_from_element`: the built record is
returned only when its title and one of `price`/`sale_price` are truthy. -/
def scrape_product_from_element (e : Node) : Option Product :=
  let p := buildProduct e
  if truthyS p.title && (truthyQ p.price || truthyQ p.sale_price) then some p else none

/-! ## Structured data (JSON-LD) -/

/-- A parsed JSON value.  Numbers keep their textual form, which is what
`str(...)` hands to `extract_price`. -/
inductive Json where
  | null
  | str (s : String)
  | num (lit : String)
  | arr (xs : List Json)
  | obj (fields : List (String × Json))

def Json.getField : Json → String → Option Json
  | .obj fs, k => (fs.find? (fun f => f.1 = k)).map (fun f => f.2)
  | _, _ => none

/-- Python `str(...)` of a JSON value, restricted to the scalar cases the
scraper meets in `offers.price` (composite reprs are not modelled). -/
def pyStr : Json → String
  | .str s => s
  | .num l => l
  | .null => "None"
  | .arr _ => ""
  | .obj _ => ""

/-- One `<script type="application/ld+json">` block, by the outcome of
`json.loads(script.string)`: no string child (so `json.loads(None)`
raises `TypeError`), a string that fails to parse (`JSONDecodeError`),
or a parsed value. -/
inductive ScriptBlock where
  | noString
  | badJson
  | ok (j : Json)

/-- A fetched page: its JSON-LD script blocks and its element tree. -/
structure RawPage where
  scripts : List ScriptBlock
  body : NodeList

/-- `data.get('offers', {}).get('price', '')` as a string; `none` models
the `AttributeError` raised when `offers` is present but not a dict
(caught by the surrounding `except`). -/
def offersPriceStr (j : Json) : Option String :=
  match j.getField "offers" with
  | none => some ""
  | some (.obj fs) =>
    match (fs.find? (fun f => f.1 = "price")).map (fun f => f.2) with
    | none => some ""
    | some v => some (pyStr v)
  | some _ => none

/-- String field access for `name` / `description` (the scraper's pages
carry string values there). -/
def jStrField (j : Json) (k : String) : Option String :=
  match j.getField k with
  | some (.str s) => some s
  | _ => none

/-- `data.get('@type') == 'Product'`. -/
def isProductType (j : Json) : Bool :=
  match j.getField "@type" with
  | some (.str s) => s = "Product"
  | _ => false

/-- Build the record from one well-formed `@type: Product` block; `none`
when the block is skipped (wrong type, `AttributeError`, or the final
`if product['title'] and product['price']` check fails). -/
def processBlock (url : String) (j : Json) : Option Product :=
  match j with
  | .obj _ =>
    if isProductType j then
      match offersPriceStr j with
      | none => none
      | some s =>
        let p : Product :=
          { title := jStrField j "name"
            description := jStrField j "description"
            price := extract_price s
            link := some url
            source := some "json-ld" }
        if truthyS p.title && truthyQ p.price then some p else none
    else none
  | _ => none

/-- The JSON-LD loop of `scrape_products_page`.  A `noString` block makes
`json.loads(None)` raise `TypeError`, which the `except
(json.JSONDecodeError, AttributeError)` clause does not catch, so the
whole page scrape raises (modelled as `Except.error ()`). -/
def processScripts (url : String) : List ScriptBlock → Except Unit (List Product)
  | [] => .ok []
  | b :: bs =>
    match b with
    | .noString => .error ()
    | .badJson => processScripts url bs
    | .ok j =>
      match processBlock url j with
      | some p => (processScripts url bs).map (fun l => p :: l)
      | none => processScripts url bs

/-- The records one selector yields: its first 10 matched elements, each
run through `scrape_product_from_element`. -/
def selYield (body : NodeList) (s : Selector) : List Product :=
  ((selectQ body s).take 10).filterMap scrape_product_from_element

/-- The selector-cascade loop: `products` starts as the accumulator; a
selector with matching elements appends the records of its first 10
matches, and the loop breaks only when `products` is then nonempty. -/
def cascadeAux (body : NodeList) : List Selector → List Product → List Product
  | [], acc => acc
  | s :: rest, acc =>
    let elements := selectQ body s
    if elements.isEmpty then cascadeAux body rest acc
    else
      let acc2 := acc ++ (elements.take 10).filterMap scrape_product_from_element
      if acc2.isEmpty then cascadeAux body rest acc2 else acc2

/-- `CrispScraper.scrape_products_page`, given the fetch result for the
URL (`none` models `get_page` returning `None`). -/
def scrape_products_page (url : String) (fetched : Option RawPage) :
    Except Unit (List Product) :=
  match fetched with
  | none => .ok []
  | some pg =>
    match processScripts url pg.scripts with
    | .error e => .error e
    | .ok prods =>
      .ok (if prods.isEmpty then cascadeAux pg.body product_selectors [] else prods)

/-! ## Fetcher (`get_page`) -/

/-- The retry loop of `get_page`, instrumented with the number of request
attempts actually made.  `net a` is the outcome of attempt `a`. -/
def getPageRun (net : Nat → Option RawPage) : Nat → Nat → Option RawPage × Nat
  | _, 0 => (none, 0)
  | a, k + 1 =>
    match net a with
    | some p => (some p, 1)
    | none =>
      let r := getPageRun net (a + 1) k
      (r.1, r.2 + 1)

/-- `CrispScraper.get_page` with its retry bound (default 3). -/
def get_page (net : Nat → Option RawPage) (retries : Nat) : Option RawPage :=
  (getPageRun net 0 retries).1

/-- A page scrape through the fetcher: `w url` gives the network outcome
of each attempt at `url`. -/
def scrapeUrl (w : String → Nat → Option RawPage) (url : String) :
    Except Unit (List Product) :=
  scrape_products_page url (get_page (w url) 3)

/-! ## Aggregator (`scrape_all_products`) -/

/-- The title-dedup loop: `seen` is the set of titles already kept. -/
def dedupAux (seen : List (Option String)) : List Product → List Product
  | [] => []
  | p :: ps =>
    if p.title ∈ seen then dedupAux seen ps
    else p :: dedupAux (p.title :: seen) ps

def dedupByTitle (ps : List Product) : List Product := dedupAux [] ps

/-- The per-URL loop of `scrape_all_products`: results are concatenated;
an uncaught exception from one page aborts the run. -/
def collectPages (w : String → Nat → Option RawPage) :
    List String → Except Unit (List Product)
  | [] => .ok []
  | u :: us =>
    match scrapeUrl w u with
    | .error e => .error e
    | .ok ps => (collectPages w us).map (fun l => ps ++ l)

/-- `CrispScraper.scrape_all_products` over a given URL list (URL
discovery itself is network glue outside the claims). -/
def scrape_all_products (w : String → Nat → Option RawPage) (urls : List String) :
    Except Unit (List Product) :=
  (collectPages w urls).map dedupByTitle

/-! ## Reporter (`find_sale_products`) -/

/-- Classify one record; when on sale, keep the (mutated) record with
`on_sale` set. -/
def markSale (p : Product) : Option Product :=
  let r := is_on_sale p
  if r.1 then some { r.2 with on_sale := true } else none

/-- The composite sort key: descending discount (missing = 0), then
ascending `price`, falling back to `sale_price`, falling back to 999. -/
def sortKey (p : Product) : Int × Rat :=
  (-(((p.discount_percentage.getD 0) : Nat) : Int),
   p.price.getD (p.sale_price.getD 999))

/-- Strict lexicographic comparison of sort keys. -/
def keyLt (a b : Int × Rat) : Bool :=
  decide (a.1 < b.1) || (decide (a.1 = b.1) && decide (a.2 < b.2))

/-- Stable insertion: the new record goes before the first existing
record with a key not smaller than its own. -/
def insertK (x : Product) : List Product → List Product
  | [] => [x]
  | y :: ys => if keyLt (sortKey y) (sortKey x) then y :: insertK x ys else x :: y :: ys

/-- A stable sort by `sortKey` (Python `list.sort` is stable). -/
def isortK : List Product → List Product
  | [] => []
  | x :: xs => insertK x (isortK xs)

/-- `CrispScraper.find_sale_products` on a given record list. -/
def find_sale_products (ps : List Product) : List Product :=
  isortK (ps.filterMap markSale)

/-! ## Concrete fixtures used by witnesses and counterexamples -/

def h2Choco : Node :=
  .elem "h2" [] none none none none (.cons (.text "Choco") .nil)

/-- A container matched by `[class*="product"]` that yields no record. -/
def divProduct : Node := .elem "div" ["product"] none none none none .nil

/-- A container matched by `[class*="item"]` that yields a record. -/
def divItem : Node :=
  .elem "div" ["item"] none none none none
    (.cons h2Choco (.cons (.text "€ 3,99") .nil))

def bodyC1 : NodeList := .cons divProduct (.cons divItem .nil)

def chocoRec : Product := { title := some "Choco", price := some (399/100) }

def widgetJson : Json :=
  .obj [("@type", .str "Product"), ("name", .str "Widget"),
        ("offers", .obj [("price", .str "9.99")])]

def widgetBlock : ScriptBlock := .ok widgetJson

def widgetRec (url : String) : Product :=
  { title := some "Widget", price := some (999/100),
    link := some url, source := some "json-ld" }

/-- A container whose only price text parses to zero. -/
def zeroDiv : Node :=
  .elem "div" [] none none none none
    (.cons (.elem "h2" [] none none none none (.cons (.text "T") .nil))
      (.cons (.elem "span" ["price"] none none none none (.cons (.text "€0,00") .nil))
        .nil))

/-- A structured-data block whose `offers.price` parses to zero. -/
def zeroJson : Json :=
  .obj [("@type", .str "Product"), ("name", .str "X"),
        ("offers", .obj [("price", .str "0")])]

/-- A container with two nonzero prices. -/
def dualDiv : Node :=
  .elem "div" [] none none none none
    (.cons (.elem "h3" [] none none none none (.cons (.text "Duo") .nil))
      (.cons (.elem "span" ["price"] none none none none (.cons (.text "€14.99") .nil))
        (.cons (.elem "span" ["price"] none none none none (.cons (.text "€19.99") .nil))
          .nil)))

end Crisp

namespace Crisp

/-! ## String lemmas -/

theorem startsL_iff (n h : List Char) : startsL n h = true ↔ ∃ r, h = n ++ r := by
  induction n generalizing h with
  | nil => simp [startsL]
  | cons c cs ih =>
    cases h with
    | nil => simp [startsL]
    | cons d ds =>
      simp only [startsL, Bool.and_eq_true, decide_eq_true_eq, ih, List.cons_append]
      constructor
      · rintro ⟨rfl, r, rfl⟩; exact ⟨r, rfl⟩
      · rintro ⟨r, h⟩
        injection h with h1 h2
        exact ⟨h1.symm, r, h2⟩

theorem containsSub_iff (h n : List Char) :
    containsSub h n = true ↔ ∃ l r, h = l ++ n ++ r := by
  induction h with
  | nil =>
    simp only [containsSub, startsL_iff]
    constructor
    · rintro ⟨r, hr⟩
      exact ⟨[], r, by simpa using hr⟩
    · rintro ⟨l, r, hr⟩
      have h3 : l = [] ∧ n = [] ∧ r = [] := by simpa using hr.symm
      rcases h3 with ⟨rfl, rfl, rfl⟩
      exact ⟨[], rfl⟩
  | cons c hs ih =>
    simp only [containsSub, Bool.or_eq_true, startsL_iff, ih]
    constructor
    · rintro (⟨r, hr⟩ | ⟨l, r, hr⟩)
      · exact ⟨[], r, by simpa using hr⟩
      · exact ⟨c :: l, r, by simp [hr]⟩
    · rintro ⟨l, r, hr⟩
      cases l with
      | nil => exact Or.inl ⟨r, by simpa using hr⟩
      | cons a l' =>
        right
        injection hr with h1 h2
        exact ⟨l', r, h2⟩

/-! ## Claim C3: `extract_price` -/

theorem findToken_eq_none (l : List Char) (h : ∀ c ∈ l, c.isDigit = false) :
    findToken l = none := by
  induction l with
  | nil => rfl
  | cons c cs ih =>
    have hc : c.isDigit = false := h c (List.mem_cons_self c cs)
    simp only [findToken, hc, Bool.false_eq_true, if_false]
    exact ih fun d hd => h d (List.mem_cons_of_mem c hd)

theorem extract_price_none (s : String) (h : ∀ c ∈ s.data, c.isDigit = false) :
    extract_price s = none := by
  unfold extract_price
  split
  · rfl
  · apply findToken_eq_none
    intro c hc
    simp only [commaToDot, stripEuro, List.mem_map, List.mem_filter] at hc
    rcases hc with ⟨d, ⟨hd, _⟩, rfl⟩
    by_cases hcomma : d = ','
    · simp [hcomma]
    · simpa [hcomma] using h d hd

/-- C3: `parse_price` strips the currency marker, turns the comma
separator into a period, and returns the first numeric token
(`parse_price("€ 12,50") = 12.50`, and in
`"Was €19.99 Nu €14.99"` the first match `19.99` wins); every input
without a digit yields `none`. -/
theorem C3_parse_price_first_token :
    extract_price "€ 12,50" = some (25/2 : Rat) ∧
    extract_price "Was €19.99 Nu €14.99" = some (1999/100 : Rat) ∧
    ∀ s : String, (∀ c ∈ s.data, c.isDigit = false) → extract_price s = none :=
  ⟨by with_unfolding_all rfl, by with_unfolding_all rfl, extract_price_none⟩

/-- Witness for C3 at a concrete digit-free input. -/
theorem C3_parse_price_first_token_witness : extract_price "geen cijfers €" = none :=
  C3_parse_price_first_token.2.2 "geen cijfers €" (by decide)

/-! ## Claim C2: the sale classifier -/

def tP125 : Product := { title := some "125% korting" }

def pZeroOrig : Product := { original_price := some 0, sale_price := some 5 }

/-- C2 counterexample: the text `"125% korting"` contains `"25%"` as a
substring yet the classifier records a discount of 125, not 25; and a
record with both `original_price` and `sale_price` present, but
`original_price = 0`, is classified as not on sale because Python
truthiness treats `0.0` like an absent value. -/
theorem C2_sale_chain_counterexample :
    containsSub (saleText tP125) "25%".data = true ∧
    is_on_sale tP125 = (true, { tP125 with discount_percentage := some 125 }) ∧
    (125 : Nat) ≠ 25 ∧
    pZeroOrig.original_price.isSome = true ∧
    pZeroOrig.sale_price.isSome = true ∧
    (is_on_sale pZeroOrig).1 = false := by
  refine ⟨by with_unfolding_all rfl, by with_unfolding_all rfl, by decide,
    rfl, rfl, by with_unfolding_all rfl⟩

/-- C2 (amended): the classifier's decision chain over the combined
lowercase title+description text: a `<digits>%` regex match (leftmost
maximal digit run immediately followed by `%`) sets the discount and
short-circuits everything; else a keyword substring match; else both
price fields present *and nonzero*; else not on sale. -/
theorem C2_sale_chain (p : Product) :
    (∀ d, findDiscountAux none (saleText p) = some d →
      is_on_sale p = (true, { p with discount_percentage := some d })) ∧
    (findDiscountAux none (saleText p) = none →
      ((∃ k ∈ sale_keywords, ∃ l r, saleText p = l ++ k.data ++ r) →
        is_on_sale p = (true, p)) ∧
      ((∀ k ∈ sale_keywords, ¬ ∃ l r, saleText p = l ++ k.data ++ r) →
        (truthyQ p.original_price && truthyQ p.sale_price) = true →
        is_on_sale p = (true, p)) ∧
      ((∀ k ∈ sale_keywords, ¬ ∃ l r, saleText p = l ++ k.data ++ r) →
        (truthyQ p.original_price && truthyQ p.sale_price) = false →
        is_on_sale p = (false, p))) := by
  constructor
  · intro d hd
    simp [is_on_sale, hd]
  · intro hnone
    refine ⟨?_, ?_, ?_⟩
    · intro hkw
      have hany : sale_keywords.any (fun k => containsSub (saleText p) k.data) = true := by
        rcases hkw with ⟨k, hk, hsub⟩
        simp only [List.any_eq_true]
        exact ⟨k, hk, (containsSub_iff _ _).2 hsub⟩
      simp [is_on_sale, hnone, hany]
    · intro hkw htr
      have hany : sale_keywords.any (fun k => containsSub (saleText p) k.data) = false := by
        simp only [List.any_eq_false]
        intro k hk
        have := hkw k hk
        rw [← containsSub_iff] at this
        simpa using this
      simp [is_on_sale, hnone, hany, htr]
    · intro hkw htr
      have hany : sale_keywords.any (fun k => containsSub (saleText p) k.data) = false := by
        simp only [List.any_eq_false]
        intro k hk
        have := hkw k hk
        rw [← containsSub_iff] at this
        simpa using this
      simp [is_on_sale, hnone, hany, htr]

def p25kw : Product := { title := some "Nu in de sale: 25% korting" }

/-- Witness for C2 at a record whose text holds keywords and a clean
`25%` match. -/
theorem C2_sale_chain_witness :
    is_on_sale p25kw = (true, { p25kw with discount_percentage := some 25 }) :=
  (C2_sale_chain p25kw).1 25 (by with_unfolding_all rfl)

/-! ## Claim C1: the selector cascade -/

theorem selYield_of_empty {body : NodeList} {s : Selector}
    (h : selectQ body s = []) : selYield body s = [] := by
  simp [selYield, h]

/-- C1 counterexample: on `bodyC1` the first selector
`[class*="product"]` matches exactly one element, which yields no valid
record, yet the page scrape still returns the record produced by the
second selector `[class*="item"]` — a later pattern was tried. -/
theorem C1_cascade_counterexample :
    ((selectQ bodyC1 (Selector.classContains "product")).map
        scrape_product_from_element) = [none] ∧
    selYield bodyC1 (Selector.classContains "product") = [] ∧
    scrape_products_page "u" (some ⟨[], bodyC1⟩) = .ok [chocoRec] := by
  refine ⟨by with_unfolding_all rfl, by with_unfolding_all rfl,
    by with_unfolding_all rfl⟩

/-- C1 (amended): when structured metadata yields zero records, the
cascade returns the yield of the FIRST selector whose matched elements
(capped at 10) produce at least one valid record; a selector that
matches elements but yields no record does not stop the cascade. -/
theorem C1_cascade_first_yielding :
    (∀ (body : NodeList) (sels : List Selector),
      cascadeAux body sels [] =
        match sels.find? (fun s => !(selYield body s).isEmpty) with
        | some s => selYield body s
        | none => []) ∧
    (∀ (url : String) (pg : RawPage), processScripts url pg.scripts = .ok [] →
      scrape_products_page url (some pg) =
        .ok (cascadeAux pg.body product_selectors [])) := by
  constructor
  · intro body sels
    induction sels with
    | nil => rfl
    | cons s rest ih =>
      simp only [cascadeAux]
      cases hsel : selectQ body s with
      | nil =>
        have hy : selYield body s = [] := selYield_of_empty hsel
        simp only [List.isEmpty_nil, if_true, List.find?_cons, hy,
          List.isEmpty_nil, Bool.not_true]
        exact ih
      | cons e es =>
        simp only [List.isEmpty_cons, Bool.false_eq_true, if_false, List.nil_append]
        have hacc : List.filterMap scrape_product_from_element (List.take 10 (e :: es))
            = selYield body s := by
          simp [selYield, hsel]
        rw [hacc]
        cases hy : selYield body s with
        | nil =>
          simp only [List.isEmpty_nil, if_true, List.find?_cons, hy, Bool.not_true]
          exact ih
        | cons r rs =>
          simp [List.find?_cons, hy]
  · intro url pg h
    simp [scrape_products_page, h]

/-- Witness for C1 at a page with no structured data. -/
theorem C1_cascade_first_yielding_witness :
    scrape_products_page "u" (some ⟨[], bodyC1⟩) =
      .ok (cascadeAux bodyC1 product_selectors []) :=
  C1_cascade_first_yielding.2 "u" ⟨[], bodyC1⟩ rfl

/-! ## Claim C5: structured data wins over the cascade -/

/-- C5 counterexample: the record extracted from the Widget block is
tagged `source = "json-ld"`, not `"structured-data"`. -/
theorem C5_structured_source_counterexample :
    scrape_products_page "u" (some ⟨[widgetBlock], .nil⟩) = .ok [widgetRec "u"] ∧
    (widgetRec "u").source = some "json-ld" ∧
    (widgetRec "u").source ≠ some "structured-data" := by
  refine ⟨by with_unfolding_all rfl, rfl, by decide⟩

/-- C5 (amended): a page whose structured-data block declares the Widget
product yields exactly one record `{title := "Widget", price := 9.99,
source := "json-ld"}` (plus the page URL as link), whatever the element
tree looks like — the selector cascade is never consulted. -/
theorem C5_structured_first (url : String) (body : NodeList) :
    scrape_products_page url (some ⟨[widgetBlock], body⟩) = .ok [widgetRec url] := by
  have h : processScripts url [widgetBlock] = .ok [widgetRec url] := by
    with_unfolding_all rfl
  simp [scrape_products_page, h]

/-! ## Claim C9: malformed structured-data blocks -/

/-- C9: a block whose script tag has no string content makes
`json.loads(None)` raise `TypeError`, which the
`except (json.JSONDecodeError, AttributeError)` clause does not catch:
the page scrape aborts instead of skipping the block.  A block whose
string fails to parse (`JSONDecodeError`) is skipped as the claim says,
and extraction continues to the remaining well-formed blocks. -/
theorem C9_malformed_blocks :
    scrape_products_page "u" (some ⟨[ScriptBlock.noString], .nil⟩) = .error () ∧
    scrape_products_page "u" (some ⟨[ScriptBlock.badJson, widgetBlock], .nil⟩) =
      .ok [widgetRec "u"] ∧
    scrape_products_page "u"
        (some ⟨[ScriptBlock.badJson, widgetBlock, ScriptBlock.noString], .nil⟩) =
      .error () := by
  refine ⟨rfl, by with_unfolding_all rfl, by with_unfolding_all rfl⟩

/-! ## Min/max lemmas for the price pair -/

theorem listMin_le (p : Rat) (l : List Rat) : listMin p l ≤ p := by
  induction l generalizing p with
  | nil => exact le_refl p
  | cons q qs ih =>
    calc listMin p (q :: qs) = listMin (min p q) qs := rfl
    _ ≤ min p q := ih (min p q)
    _ ≤ p := min_le_left _ _

theorem le_listMax (p : Rat) (l : List Rat) : p ≤ listMax p l := by
  induction l generalizing p with
  | nil => exact le_refl p
  | cons q qs ih =>
    calc p ≤ max p q := le_max_left _ _
    _ ≤ listMax (max p q) qs := ih (max p q)
    _ = listMax p (q :: qs) := rfl

theorem listMin_le_listMax (p : Rat) (l : List Rat) : listMin p l ≤ listMax p l :=
  le_trans (listMin_le p l) (le_listMax p l)

theorem listMin_pos (p : Rat) (l : List Rat) (hp : 0 < p) (hl : ∀ x ∈ l, 0 < x) :
    0 < listMin p l := by
  induction l generalizing p with
  | nil => exact hp
  | cons q qs ih =>
    have hq : 0 < q := hl q (List.mem_cons_self q qs)
    exact ih (min p q) (lt_min hp hq) fun x hx => hl x (List.mem_cons_of_mem q hx)

theorem listMax_pos (p : Rat) (l : List Rat) (hp : 0 < p) : 0 < listMax p l :=
  lt_of_lt_of_le hp (le_listMax p l)

/-! ## Claim C4: single vs multiple prices in one container -/

/-- C4: exactly one collected price goes to `price` with the sale fields
unset; two or more go to `sale_price := min` and `original_price := max`;
hence a record from the element extractor that has both fields satisfies
`sale_price ≤ original_price`. -/
theorem C4_price_assignment (e : Node) :
    (∀ p0, collectPrices (elemChildren e) = [p0] →
      (buildProduct e).price = some p0 ∧ (buildProduct e).sale_price = none ∧
      (buildProduct e).original_price = none) ∧
    (∀ p0 q0 rest, collectPrices (elemChildren e) = p0 :: q0 :: rest →
      (buildProduct e).price = none ∧
      (buildProduct e).sale_price = some (listMin p0 (q0 :: rest)) ∧
      (buildProduct e).original_price = some (listMax p0 (q0 :: rest)) ∧
      listMin p0 (q0 :: rest) ≤ listMax p0 (q0 :: rest)) ∧
    (∀ r a b, scrape_product_from_element e = some r →
      r.sale_price = some a → r.original_price = some b → a ≤ b) := by
  have hpr : (buildProduct e).price = (assignPrices (collectPrices (elemChildren e))).1 :=
    rfl
  have hsp : (buildProduct e).sale_price
      = (assignPrices (collectPrices (elemChildren e))).2.1 := rfl
  have hop : (buildProduct e).original_price
      = (assignPrices (collectPrices (elemChildren e))).2.2 := rfl
  refine ⟨?_, ?_, ?_⟩
  · intro p0 h
    rw [hpr, hsp, hop, h]
    exact ⟨rfl, rfl, rfl⟩
  · intro p0 q0 rest h
    rw [hpr, hsp, hop, h]
    exact ⟨rfl, rfl, rfl, listMin_le_listMax p0 (q0 :: rest)⟩
  · intro r a b hr hsa hob
    have hre : r = buildProduct e := by
      simp only [scrape_product_from_element] at hr
      split at hr
      · exact (Option.some.inj hr).symm
      · exact absurd hr (by simp)
    subst hre
    rw [hsp] at hsa
    rw [hop] at hob
    cases hc : collectPrices (elemChildren e) with
    | nil => rw [hc] at hsa; exact absurd hsa (by simp [assignPrices])
    | cons p0 tl =>
      cases tl with
      | nil => rw [hc] at hsa; exact absurd hsa (by simp [assignPrices])
      | cons q0 rest =>
        rw [hc] at hsa hob
        have ha : listMin p0 (q0 :: rest) = a := Option.some.inj hsa
        have hb : listMax p0 (q0 :: rest) = b := Option.some.inj hob
        rw [← ha, ← hb]
        exact listMin_le_listMax p0 (q0 :: rest)

/-- Witness for C4 at a container with the prices 14.99 and 19.99 (each
collected twice: once from the span element, once from its text node, as
the three concatenated `find_all` queries do). -/
theorem C4_price_assignment_witness :
    (buildProduct dualDiv).sale_price
      = some (listMin (1499/100) [1999/100, 1499/100, (1999/100 : Rat)]) ∧
    (buildProduct dualDiv).original_price
      = some (listMax (1499/100) [1999/100, 1499/100, (1999/100 : Rat)]) ∧
    listMin (1499/100) [1999/100, 1499/100, (1999/100 : Rat)]
      ≤ listMax (1499/100) [1999/100, 1499/100, (1999/100 : Rat)] := by
  have h := (C4_price_assignment dualDiv).2.1 (1499/100) (1999/100)
    [1499/100, 1999/100] (by with_unfolding_all rfl)
  exact ⟨h.2.1, h.2.2.1, h.2.2.2⟩

/-! ## Claim C10: positivity of every emitted price -/

theorem findToken_nonneg (l : List Char) (p : Rat) (h : findToken l = some p) :
    0 ≤ p := by
  induction l with
  | nil => exact absurd h (by simp [findToken])
  | cons c cs ih =>
    by_cases hc : c.isDigit = true
    · simp only [findToken, hc, if_true] at h
      rcases hrun : digitRun (digitVal c) cs with ⟨ip, rest⟩
      rw [hrun] at h
      cases rest with
      | nil =>
        have : (ip : Rat) = p := Option.some.inj h
        rw [← this]
        positivity
      | cons sep rest2 =>
        by_cases hsep : (sep = '.' || sep = ',') = true
        · simp only [hsep, if_true] at h
          rcases hfr : fracRun 0 0 rest2 with ⟨fv, fc⟩
          rw [hfr] at h
          have : (ip : Rat) + (fv : Rat) / ((10 : Rat) ^ fc) = p := Option.some.inj h
          rw [← this]
          positivity
        · simp only [hsep, if_false] at h
          have : (ip : Rat) = p := Option.some.inj h
          rw [← this]
          positivity
    · have hc' : c.isDigit = false := by simpa using hc
      simp only [findToken, hc', if_false] at h
      exact ih h

theorem extract_price_nonneg (s : String) (p : Rat) (h : extract_price s = some p) :
    0 ≤ p := by
  unfold extract_price at h
  split at h
  · exact absurd h (by simp)
  · exact findToken_nonneg _ _ h

theorem collectPrices_pos (ch : NodeList) (p : Rat) (h : p ∈ collectPrices ch) :
    0 < p := by
  simp only [collectPrices, List.mem_filterMap] at h
  rcases h with ⟨n, _, hn⟩
  by_cases he : containsChar '€' (priceTextOf n).data = true
  · simp only [he, if_true] at hn
    cases hx : extract_price (priceTextOf n) with
    | none => rw [hx] at hn; exact absurd hn (by simp)
    | some q =>
      rw [hx] at hn
      by_cases hq : q = 0
      · simp [hq] at hn
      · simp only [hq, ne_eq, not_false_eq_true, if_true] at hn
        have : q = p := Option.some.inj hn
        rw [← this]
        exact lt_of_le_of_ne (extract_price_nonneg _ _ hx) (Ne.symm hq)
  · have he' : containsChar '€' (priceTextOf n).data = false := by simpa using he
    rw [he'] at hn
    exact absurd hn (by simp)

theorem buildProduct_price_pos (e : Node) :
    (∀ v, (buildProduct e).price = some v → 0 < v) ∧
    (∀ v, (buildProduct e).sale_price = some v → 0 < v) ∧
    (∀ v, (buildProduct e).original_price = some v → 0 < v) := by
  have hpr : (buildProduct e).price = (assignPrices (collectPrices (elemChildren e))).1 :=
    rfl
  have hsp : (buildProduct e).sale_price
      = (assignPrices (collectPrices (elemChildren e))).2.1 := rfl
  have hop : (buildProduct e).original_price
      = (assignPrices (collectPrices (elemChildren e))).2.2 := rfl
  have hL : ∀ x ∈ collectPrices (elemChildren e), 0 < x :=
    fun x hx => collectPrices_pos _ x hx
  cases hc : collectPrices (elemChildren e) with
  | nil =>
    rw [hc] at hpr hsp hop
    refine ⟨?_, ?_, ?_⟩ <;> intro v hv
    · rw [hpr] at hv; exact absurd hv (by simp [assignPrices])
    · rw [hsp] at hv; exact absurd hv (by simp [assignPrices])
    · rw [hop] at hv; exact absurd hv (by simp [assignPrices])
  | cons p0 tl =>
    rw [hc] at hL
    cases tl with
    | nil =>
      rw [hc] at hpr hsp hop
      refine ⟨?_, ?_, ?_⟩ <;> intro v hv
      · rw [hpr] at hv
        have : p0 = v := Option.some.inj hv
        rw [← this]
        exact hL p0 (List.mem_cons_self _ _)
      · rw [hsp] at hv; exact absurd hv (by simp [assignPrices])
      · rw [hop] at hv; exact absurd hv (by simp [assignPrices])
    | cons q0 rest =>
      rw [hc] at hpr hsp hop
      have hp0 : 0 < p0 := hL p0 (List.mem_cons_self _ _)
      refine ⟨?_, ?_, ?_⟩ <;> intro v hv
      · rw [hpr] at hv; exact absurd hv (by simp [assignPrices])
      · rw [hsp] at hv
        have : listMin p0 (q0 :: rest) = v := Option.some.inj hv
        rw [← this]
        exact listMin_pos p0 (q0 :: rest) hp0
          fun x hx => hL x (List.mem_cons_of_mem p0 hx)
      · rw [hop] at hv
        have : listMax p0 (q0 :: rest) = v := Option.some.inj hv
        rw [← this]
        exact listMax_pos p0 (q0 :: rest) hp0

theorem scrape_element_pos (e : Node) (r : Product)
    (h : scrape_product_from_element e = some r) :
    (∀ v, r.price = some v → 0 < v) ∧
    (∀ v, r.sale_price = some v → 0 < v) ∧
    (∀ v, r.original_price = some v → 0 < v) := by
  have hre : r = buildProduct e := by
    simp only [scrape_product_from_element] at h
    split at h
    · exact (Option.some.inj h).symm
    · exact absurd h (by simp)
  subst hre
  exact buildProduct_price_pos e

theorem processBlock_pos (url : String) (j : Json) (r : Product)
    (h : processBlock url j = some r) :
    (∀ v, r.price = some v → 0 < v) ∧
    r.sale_price = none ∧ r.original_price = none := by
  cases j with
  | obj fs =>
    by_cases hty : isProductType (.obj fs) = true
    · cases hos : offersPriceStr (.obj fs) with
      | none => simp [processBlock, hty, hos] at h
      | some s =>
        by_cases hcond : (truthyS (jStrField (Json.obj fs) "name")
            && truthyQ (extract_price s)) = true
        · simp only [processBlock, hty, hos, if_true, hcond,
            Option.some.injEq] at h
          subst h
          refine ⟨?_, rfl, rfl⟩
          intro v hv
          have htr : truthyQ (extract_price s) = true := by
            rw [Bool.and_eq_true] at hcond
            exact hcond.2
          have hx : extract_price s = some v := hv
          rw [hx] at htr
          have hv0 : v ≠ 0 := by simpa [truthyQ] using htr
          exact lt_of_le_of_ne (extract_price_nonneg _ _ hx) (Ne.symm hv0)
        · simp [processBlock, hty, hos, hcond] at h
    · simp [processBlock, hty] at h
  | null => exact absurd h (by simp [processBlock])
  | str s => exact absurd h (by simp [processBlock])
  | num s => exact absurd h (by simp [processBlock])
  | arr xs => exact absurd h (by simp [processBlock])

theorem processScripts_mem (url : String) (bs : List ScriptBlock)
    (l : List Product) (r : Product)
    (h : processScripts url bs = .ok l) (hr : r ∈ l) :
    ∃ j, processBlock url j = some r := by
  induction bs generalizing l with
  | nil =>
    have : ([] : List Product) = l := by simpa [processScripts] using h
    rw [← this] at hr
    exact absurd hr (by simp)
  | cons b bs ih =>
    cases b with
    | noString => exact absurd h (by simp [processScripts])
    | badJson => exact ih l (by simpa [processScripts] using h) hr
    | ok j =>
      simp only [processScripts] at h
      cases hpb : processBlock url j with
      | some p =>
        rw [hpb] at h
        cases hrec : processScripts url bs with
        | error e => rw [hrec] at h; exact absurd h (by simp [Except.map])
        | ok l' =>
          rw [hrec] at h
          have hl : p :: l' = l := by simpa [Except.map] using h
          rw [← hl] at hr
          rcases List.mem_cons.1 hr with hrp | hrl
          · exact ⟨j, by rw [hpb, hrp]⟩
          · exact ih l' hrec hrl
      | none =>
        rw [hpb] at h
        exact ih l h hr

theorem cascadeAux_mem (body : NodeList) (sels : List Selector)
    (acc : List Product) (r : Product) (h : r ∈ cascadeAux body sels acc) :
    r ∈ acc ∨ ∃ e, scrape_product_from_element e = some r := by
  induction sels generalizing acc with
  | nil => exact Or.inl h
  | cons s rest ih =>
    simp only [cascadeAux] at h
    split at h
    · exact ih acc h
    · split at h
      · rcases ih _ h with hacc2 | hex
        · rcases List.mem_append.1 hacc2 with h1 | h2
          · exact Or.inl h1
          · right
            rcases List.mem_filterMap.1 h2 with ⟨e, _, he⟩
            exact ⟨e, he⟩
        · exact Or.inr hex
      · rcases List.mem_append.1 h with h1 | h2
        · exact Or.inl h1
        · right
          rcases List.mem_filterMap.1 h2 with ⟨e, _, he⟩
          exact ⟨e, he⟩

/-- C10: zero-valued price tokens are never collected; the example
containers with only a zero price yield nothing; and every price field of
every record the Extractor emits is strictly positive. -/
theorem C10_positive_prices :
    (∀ (ch : NodeList) (p : Rat), p ∈ collectPrices ch → 0 < p) ∧
    scrape_product_from_element zeroDiv = none ∧
    processBlock "u" zeroJson = none ∧
    (∀ (url : String) (fetched : Option RawPage) (l : List Product) (r : Product),
      scrape_products_page url fetched = .ok l → r ∈ l →
      (∀ v, r.price = some v → 0 < v) ∧
      (∀ v, r.sale_price = some v → 0 < v) ∧
      (∀ v, r.original_price = some v → 0 < v)) := by
  refine ⟨collectPrices_pos, by with_unfolding_all rfl, by with_unfolding_all rfl, ?_⟩
  intro url fetched l r h hr
  cases fetched with
  | none =>
    have : ([] : List Product) = l := by simpa [scrape_products_page] using h
    rw [← this] at hr
    exact absurd hr (by simp)
  | some pg =>
    simp only [scrape_products_page] at h
    cases hps : processScripts url pg.scripts with
    | error e => rw [hps] at h; exact absurd h (by simp)
    | ok prods =>
      rw [hps] at h
      have hl : (if prods.isEmpty then cascadeAux pg.body product_selectors []
          else prods) = l := by
        simpa using h
      by_cases hP : prods.isEmpty = true
      · rw [if_pos hP] at hl
        rw [← hl] at hr
        rcases cascadeAux_mem pg.body product_selectors [] r hr with hnil | ⟨e, he⟩
        · exact absurd hnil (by simp)
        · exact scrape_element_pos e r he
      · rw [if_neg hP] at hl
        rw [← hl] at hr
        rcases processScripts_mem url pg.scripts prods r hps hr with ⟨j, hj⟩
        rcases processBlock_pos url j r hj with ⟨hpw, hsn, hon⟩
        refine ⟨hpw, ?_, ?_⟩ <;> intro v hv
        · rw [hsn] at hv; exact absurd hv (by simp)
        · rw [hon] at hv; exact absurd hv (by simp)

/-- Witness for C10 at the Widget page. -/
theorem C10_positive_prices_witness : (0 : Rat) < 999/100 :=
  (C10_positive_prices.2.2.2 "u" (some ⟨[widgetBlock], .nil⟩) [widgetRec "u"]
      (widgetRec "u") (by with_unfolding_all rfl) (by simp)).1 (999/100) rfl

/-! ## Claim C7: deduplication by title -/

theorem dedupAux_sublist (seen : List (Option String)) (ps : List Product) :
    (dedupAux seen ps).Sublist ps := by
  induction ps generalizing seen with
  | nil => simp [dedupAux]
  | cons p ps ih =>
    simp only [dedupAux]
    split
    · exact (ih seen).cons p
    · exact (ih (p.title :: seen)).cons₂ p

theorem dedupAux_mem (seen : List (Option String)) (ps : List Product)
    (q : Product) (h : q ∈ dedupAux seen ps) :
    q.title ∉ seen ∧ ps.find? (fun x => decide (x.title = q.title)) = some q := by
  induction ps generalizing seen with
  | nil => simp [dedupAux] at h
  | cons p ps ih =>
    simp only [dedupAux] at h
    by_cases hm : p.title ∈ seen
    · rw [if_pos hm] at h
      obtain ⟨hns, hf⟩ := ih seen h
      have hne : ¬p.title = q.title := fun he => hns (he ▸ hm)
      exact ⟨hns, by simp [List.find?_cons, hne, hf]⟩
    · rw [if_neg hm] at h
      rcases List.mem_cons.1 h with rfl | hq
      · exact ⟨hm, by simp [List.find?_cons]⟩
      · obtain ⟨hns, hf⟩ := ih (p.title :: seen) hq
        have hns' : q.title ∉ seen := fun hx => hns (List.mem_cons_of_mem _ hx)
        have hne : ¬p.title = q.title := fun he =>
          hns (by rw [← he]; exact List.mem_cons_self _ _)
        exact ⟨hns', by simp [List.find?_cons, hne, hf]⟩

theorem dedupAux_pairwise (seen : List (Option String)) (ps : List Product) :
    (dedupAux seen ps).Pairwise (fun a b => a.title ≠ b.title) := by
  induction ps generalizing seen with
  | nil => simp [dedupAux]
  | cons p ps ih =>
    simp only [dedupAux]
    split
    · exact ih seen
    · refine List.pairwise_cons.2 ⟨?_, ih (p.title :: seen)⟩
      intro q hq he
      exact (dedupAux_mem _ _ q hq).1 (by rw [← he]; exact List.mem_cons_self _ _)

theorem dedupAux_covers (seen : List (Option String)) (ps : List Product)
    (p : Product) (hp : p ∈ ps) (hs : p.title ∉ seen) :
    ∃ q ∈ dedupAux seen ps, q.title = p.title := by
  induction ps generalizing seen with
  | nil => cases hp
  | cons a ps ih =>
    simp only [dedupAux]
    by_cases hm : a.title ∈ seen
    · rw [if_pos hm]
      rcases List.mem_cons.1 hp with rfl | hp'
      · exact absurd hm hs
      · exact ih seen hp' hs
    · rw [if_neg hm]
      by_cases hte : p.title = a.title
      · exact ⟨a, List.mem_cons_self _ _, hte.symm⟩
      · rcases List.mem_cons.1 hp with rfl | hp'
        · exact absurd rfl hte
        · obtain ⟨q, hq, he⟩ := ih (a.title :: seen) hp' (by
            intro hx
            rcases List.mem_cons.1 hx with h1 | h2
            · exact hte h1
            · exact hs h2)
          exact ⟨q, List.mem_cons_of_mem _ hq, he⟩

/-- C7: deduplication keeps an order-preserving subset of the input,
output titles are pairwise distinct, every input title is represented,
and each survivor is exactly the FIRST input record bearing its title. -/
theorem C7_dedup_by_title (ps : List Product) :
    (dedupByTitle ps).Sublist ps ∧
    (dedupByTitle ps).Pairwise (fun a b => a.title ≠ b.title) ∧
    (∀ p ∈ ps, ∃ q ∈ dedupByTitle ps, q.title = p.title) ∧
    (∀ q ∈ dedupByTitle ps,
      ps.find? (fun x => decide (x.title = q.title)) = some q) := by
  refine ⟨dedupAux_sublist [] ps, dedupAux_pairwise [] ps, ?_, ?_⟩
  · intro p hp
    exact dedupAux_covers [] ps p hp (by simp)
  · intro q hq
    exact (dedupAux_mem [] ps q hq).2

def dupA : Product := { title := some "Appel", price := some 1 }

def dupB : Product := { title := some "Banaan", price := some 2 }

def dupA2 : Product := { title := some "Appel", price := some 3 }

/-- Witness for C7: with two records titled "Appel", the survivor is the
first one. -/
theorem C7_dedup_by_title_witness :
    [dupA, dupB, dupA2].find? (fun x => decide (x.title = dupA.title)) = some dupA := by
  have hd : dedupByTitle [dupA, dupB, dupA2] = [dupA, dupB] := by
    with_unfolding_all rfl
  exact (C7_dedup_by_title [dupA, dupB, dupA2]).2.2.2 dupA
    (by rw [hd]; exact List.mem_cons_self _ _)

/-! ## Claim C8: retries and per-URL failure isolation -/

/-- C8: the fetcher makes at most `retries` attempts; a URL failing twice
and succeeding on the third attempt scrapes exactly like an immediate
success; a URL failing every attempt contributes no records and the
per-URL loop continues with the remaining URLs. -/
theorem C8_fetch_retry :
    (∀ (net : Nat → Option RawPage) (a r : Nat), (getPageRun net a r).2 ≤ r) ∧
    (∀ (net : Nat → Option RawPage) (pg : RawPage) (url : String),
      net 0 = none → net 1 = none → net 2 = some pg →
      scrape_products_page url (get_page net 3) = scrape_products_page url (some pg)) ∧
    (∀ (w : String → Nat → Option RawPage) (u : String) (us : List String),
      (∀ a, w u a = none) →
      scrape_all_products w (u :: us) = scrape_all_products w us) := by
  refine ⟨?_, ?_, ?_⟩
  · intro net a r
    induction r generalizing a with
    | zero => simp [getPageRun]
    | succ k ih =>
      simp only [getPageRun]
      cases hn : net a with
      | some p => simp
      | none =>
        simpa using Nat.succ_le_succ (ih (a + 1))
  · intro net pg url h0 h1 h2
    have hg : get_page net 3 = some pg := by
      simp [get_page, getPageRun, h0, h1, h2]
    rw [hg]
  · intro w u us h
    have hg : get_page (w u) 3 = none := by
      simp [get_page, getPageRun, h 0, h 1, h 2]
    have hs : scrapeUrl w u = .ok [] := by
      simp [scrapeUrl, hg, scrape_products_page]
    simp only [scrape_all_products, collectPages, hs]
    cases hc : collectPages w us with
    | error e => rfl
    | ok l => simp [Except.map]

def rpW : RawPage := ⟨[widgetBlock], .nil⟩

/-- A network that fails on the first two attempts and succeeds on the
third. -/
def netW : Nat → Option RawPage := fun a => if a = 2 then some rpW else none

/-- Witness for C8: the fail-fail-succeed network scrapes like an
immediate success. -/
theorem C8_fetch_retry_witness :
    scrape_products_page "u" (get_page netW 3) = scrape_products_page "u" (some rpW) :=
  C8_fetch_retry.2.1 netW rpW "u" rfl rfl rfl

/-! ## Claim C6: the sale selector and its stable composite sort -/

theorem keyLt_iff (a b : Int × Rat) :
    keyLt a b = true ↔ (a.1 < b.1 ∨ (a.1 = b.1 ∧ a.2 < b.2)) := by
  simp [keyLt]

theorem keyLt_false_iff (a b : Int × Rat) :
    keyLt a b = false ↔ ¬(a.1 < b.1 ∨ (a.1 = b.1 ∧ a.2 < b.2)) := by
  rw [← keyLt_iff a b, Bool.eq_false_iff]

theorem keyLt_ne (a b : Int × Rat) (h : keyLt a b = true) : a ≠ b := by
  rw [keyLt_iff] at h
  rintro rfl
  rcases h with h | ⟨_, h⟩ <;> exact lt_irrefl _ h

theorem keyLt_asymm (a b : Int × Rat) (h : keyLt a b = true) : keyLt b a = false := by
  rw [keyLt_iff] at h
  rw [keyLt_false_iff]
  rintro (h' | ⟨e', h'⟩) <;> rcases h with h1 | ⟨e1, h1⟩
  · exact lt_asymm h1 h'
  · rw [e1] at h'; exact lt_irrefl _ h'
  · rw [e'] at h1; exact lt_irrefl _ h1
  · exact lt_asymm h1 h'

theorem keyLe_trans (a b c : Int × Rat) (h1 : keyLt b a = false)
    (h2 : keyLt c b = false) : keyLt c a = false := by
  rw [keyLt_false_iff] at h1 h2 ⊢
  push_neg at h1 h2 ⊢
  obtain ⟨h1a, h1b⟩ := h1
  obtain ⟨h2a, h2b⟩ := h2
  refine ⟨le_trans h1a h2a, ?_⟩
  intro hca
  have hba : b.1 = a.1 := by omega
  have hcb : c.1 = b.1 := by omega
  exact le_trans (h1b hba) (h2b hcb)

theorem insertK_perm (x : Product) (l : List Product) :
    (insertK x l).Perm (x :: l) := by
  induction l with
  | nil => simp [insertK]
  | cons y ys ih =>
    simp only [insertK]
    split
    · exact (ih.cons y).trans (List.Perm.swap x y ys)
    · exact List.Perm.refl _

theorem isortK_perm (l : List Product) : (isortK l).Perm l := by
  induction l with
  | nil => simp [isortK]
  | cons x xs ih =>
    exact (insertK_perm x (isortK xs)).trans (ih.cons x)

theorem insertK_pairwise (x : Product) (l : List Product)
    (h : l.Pairwise (fun a b => keyLt (sortKey b) (sortKey a) = false)) :
    (insertK x l).Pairwise (fun a b => keyLt (sortKey b) (sortKey a) = false) := by
  induction l with
  | nil => simp [insertK]
  | cons y ys ih =>
    rcases List.pairwise_cons.1 h with ⟨hy, hys⟩
    simp only [insertK]
    split
    · rename_i hlt
      refine List.pairwise_cons.2 ⟨?_, ih hys⟩
      intro z hz
      have hz' : z = x ∨ z ∈ ys := by
        simpa using (insertK_perm x ys).mem_iff.1 hz
      rcases hz' with rfl | hzy
      · exact keyLt_asymm _ _ hlt
      · exact hy z hzy
    · rename_i hnlt
      have hxy : keyLt (sortKey y) (sortKey x) = false := by
        simpa using hnlt
      refine List.pairwise_cons.2 ⟨?_, h⟩
      intro z hz
      rcases List.mem_cons.1 hz with rfl | hzy
      · exact hxy
      · exact keyLe_trans _ _ _ hxy (hy z hzy)

theorem isortK_pairwise (l : List Product) :
    (isortK l).Pairwise (fun a b => keyLt (sortKey b) (sortKey a) = false) := by
  induction l with
  | nil => simp [isortK]
  | cons x xs ih => exact insertK_pairwise x (isortK xs) ih

theorem insertK_filter (x : Product) (l : List Product) (k : Int × Rat) :
    (insertK x l).filter (fun y => decide (sortKey y = k)) =
      if sortKey x = k then x :: l.filter (fun y => decide (sortKey y = k))
      else l.filter (fun y => decide (sortKey y = k)) := by
  induction l with
  | nil =>
    by_cases hx : sortKey x = k
    · simp [insertK, List.filter, hx]
    · simp [insertK, List.filter, hx]
  | cons y ys ih =>
    simp only [insertK]
    split
    · rename_i hlt
      rw [List.filter_cons, List.filter_cons, ih]
      by_cases hx : sortKey x = k
      · have hy : ¬sortKey y = k := fun he =>
          keyLt_ne _ _ hlt (he.trans hx.symm)
        simp [hx, hy]
      · simp [hx]
    · rw [List.filter_cons]
      by_cases hx : sortKey x = k
      · simp [hx]
      · simp [hx]

theorem isortK_filter (l : List Product) (k : Int × Rat) :
    (isortK l).filter (fun y => decide (sortKey y = k)) =
      l.filter (fun y => decide (sortKey y = k)) := by
  induction l with
  | nil => rfl
  | cons x xs ih =>
    simp only [isortK]
    rw [insertK_filter]
    by_cases hx : sortKey x = k
    · rw [if_pos hx, ih, List.filter_cons, if_pos (by simp [hx])]
    · rw [if_neg hx, ih, List.filter_cons, if_neg (by simp [hx])]

theorem markSale_on_sale (p r : Product) (h : markSale p = some r) :
    r.on_sale = true := by
  simp only [markSale] at h
  split at h
  · have := Option.some.inj h
    rw [← this]
  · exact absurd h (by simp)

/-- C6: `find_sale_products` returns exactly the classifier-accepted
records (as mutated by classification, each flagged `on_sale`), sorted by
descending discount (missing = 0) then ascending best-available price
(`price`, else `sale_price`, else the sentinel 999); the sort is stable:
records with equal composite keys keep their filtered input order. -/
theorem C6_select_on_sale (ps : List Product) :
    (find_sale_products ps).Perm (ps.filterMap markSale) ∧
    (∀ r ∈ find_sale_products ps, r.on_sale = true) ∧
    (find_sale_products ps).Pairwise
      (fun a b => keyLt (sortKey b) (sortKey a) = false) ∧
    (∀ k, (find_sale_products ps).filter (fun y => decide (sortKey y = k)) =
      (ps.filterMap markSale).filter (fun y => decide (sortKey y = k))) := by
  refine ⟨isortK_perm _, ?_, isortK_pairwise _, fun k => isortK_filter _ k⟩
  intro r hr
  have hr' : r ∈ ps.filterMap markSale := (isortK_perm _).mem_iff.1 hr
  rcases List.mem_filterMap.1 hr' with ⟨p, _, hp⟩
  exact markSale_on_sale p r hp

def saleA : Product := { title := some "A", description := some "sale", price := some 3 }

def saleAmarked : Product :=
  { title := some "A", description := some "sale", price := some 3, on_sale := true }

/-- Witness for C6 at a one-record list accepted via the "sale" keyword. -/
theorem C6_select_on_sale_witness : saleAmarked.on_sale = true := by
  have hd : find_sale_products [saleA] = [saleAmarked] := by
    with_unfolding_all rfl
  exact (C6_select_on_sale [saleA]).2.1 saleAmarked
    (by rw [hd]; exact List.mem_cons_self _ _)

end Crisp
